import Mathlib

/-!
Verification of the audio-synchronized solar-system visualization
(`src/main.js` and the earlier, simpler variant `src/unnamed/part_000`).

Times (media playback seconds, clock seconds) and scalar configuration
values are modelled as rationals; geometry that involves `Math.PI` and
trigonometry is modelled over the reals.  JavaScript numbers are thus
idealized as exact arithmetic; all claims below concern order
comparisons and linear arithmetic, where this idealization is faithful.

The JavaScript `Set` of already-triggered timestamps is modelled as a
`List ℚ`: the code only ever calls `has` (membership), `add` (guarded
by the `has` check, so modelled as cons), `delete` and `clear`, and
only membership is observable in the trigger logic.
-/

namespace DgaOrbit

/-! ### Configuration constants (src/main.js lines 7-27) -/

def SUN_RADIUS : ℚ := 1.5

def SHOCKWAVE_START_RADIUS : ℚ := SUN_RADIUS + 0.1

def SHOCKWAVE_SPEED : ℚ := 25.0

def SHOCKWAVE_DURATION : ℚ := 2.0

def SHOCKWAVE_NUM_LINES : ℕ := 150

def SHOCKWAVE_THICKNESS : ℚ := 1.0

def SHOCKWAVE_INITIAL_OPACITY : ℚ := 0.7

/-- The configured ring timestamps (src/main.js lines 24-27). -/
def ringTimestamps : List ℚ := [0, 5.2, 15.8, 30.1, 45.0, 60.5, 78.2, 92.5, 110.3]

/-! ### Audio Trigger Monitor (src/main.js lines 202-212)

The per-frame trigger logic, embedded as a pure function.  The loop body

    for (const timestamp of ringTimestamps) {
        if (previousTime < timestamp && currentTime >= timestamp
            && !triggeredTimestamps.has(timestamp)) {
            createShockwave();
            triggeredTimestamps.add(timestamp);
            ...
        }
    }

is `pollLoop`: it threads the fired-set through the list of configured
timestamps and returns the list of timestamps that fired (in list
order, one `createShockwave` call each) together with the final
fired-set.  The 5-second `setTimeout` re-arm is a real-time deferred
callback outside the frame loop; it is not part of a single poll. -/

def pollLoop (prev curr : ℚ) : List ℚ → List ℚ → List ℚ × List ℚ
  | [], fired => ([], fired)
  | t :: rest, fired =>
    if prev < t ∧ curr ≥ t ∧ t ∉ fired then
      (t :: (pollLoop prev curr rest (t :: fired)).1,
       (pollLoop prev curr rest (t :: fired)).2)
    else
      pollLoop prev curr rest fired

/-- One frame of the Audio Trigger Monitor (src/main.js lines 202-211):
backward-jump detection clears the fired-set first, then the trigger loop
runs over all configured timestamps. -/
def poll (prev curr : ℚ) (fired : List ℚ) (stamps : List ℚ) : List ℚ × List ℚ :=
  pollLoop prev curr stamps (if curr < prev ∧ prev > 1 then ([] : List ℚ) else fired)

/-! ### Monitor state machine (src/main.js lines 59-60, 199, 212)

`previousTime` starts at 0 and is overwritten with the media element's
`currentTime` reading at the end of every frame's trigger block; the
fired-set starts empty.  `monitorRun` runs the trigger monitor over a
sequence of `currentTime` readings and collects the list of timestamps
fired on each frame. -/

structure MonitorState where
  previousTime : ℚ
  fired : List ℚ
  deriving DecidableEq

def initialMonitorState : MonitorState := ⟨0, []⟩

def monitorStep (s : MonitorState) (curr : ℚ) : MonitorState × List ℚ :=
  (⟨curr, (poll s.previousTime curr s.fired ringTimestamps).2⟩,
   (poll s.previousTime curr s.fired ringTimestamps).1)

def monitorRun (s : MonitorState) : List ℚ → List (List ℚ)
  | [] => []
  | c :: cs => (monitorStep s c).2 :: monitorRun (monitorStep s c).1 cs

/-! ### Shockwave lifecycle (src/main.js lines 145-192 and 227-268)

A shockwave's `userData` record, its creation, and the per-frame
advance/retire pass over `activeShockwaves`.  `eid` models JavaScript
object identity (each `createShockwave` call allocates a fresh object);
`geomDisposed`/`matDisposed` record the `geometry.dispose()` and
`material.dispose()` calls made at retirement. -/

structure Shockwave where
  eid : ℕ
  startTime : ℚ
  duration : ℚ
  speed : ℚ
  startRadius : ℚ
  thickness : ℚ
  numLines : ℕ
  opacity : ℚ
  geomDisposed : Bool
  matDisposed : Bool
  deriving DecidableEq

/-- `createShockwave` (src/main.js lines 145-192): a fresh effect whose
`userData` holds the configured duration/speed/radius/thickness/line
count, whose material starts at the configured initial opacity, and
whose `startTime` is the clock's elapsed time at creation. -/
def createShockwave (eid : ℕ) (elapsed : ℚ) : Shockwave :=
  ⟨eid, elapsed, SHOCKWAVE_DURATION, SHOCKWAVE_SPEED, SHOCKWAVE_START_RADIUS,
   SHOCKWAVE_THICKNESS, SHOCKWAVE_NUM_LINES, SHOCKWAVE_INITIAL_OPACITY, false, false⟩

/-- `currentOuterRadius` (src/main.js line 243). -/
def currentOuterRadius (sw : Shockwave) (age : ℚ) : ℚ :=
  sw.startRadius + age * sw.speed

/-- `currentInnerRadius` (src/main.js line 245). -/
def currentInnerRadius (sw : Shockwave) (age : ℚ) : ℚ :=
  max sw.startRadius (currentOuterRadius sw age - sw.thickness)

/-- The opacity written by the fade-out line (src/main.js lines 242 and 266):
`SHOCKWAVE_INITIAL_OPACITY * (1.0 - progress)` with `progress = age / duration`. -/
def shockwaveOpacity (age duration : ℚ) : ℚ :=
  SHOCKWAVE_INITIAL_OPACITY * (1 - age / duration)

/-- The per-frame update applied to a surviving shockwave
(src/main.js lines 240-266); the vertex rewrite is modelled separately
over ℝ (`tickVertexStart`/`tickVertexEnd`). -/
def tickShockwave (elapsed : ℚ) (sw : Shockwave) : Shockwave :=
  { sw with opacity := shockwaveOpacity (elapsed - sw.startTime) sw.duration }

/-- Retirement (src/main.js lines 236-238): removal from the scene plus
`geometry.dispose()` and `material.dispose()`. -/
def retireShockwave (sw : Shockwave) : Shockwave :=
  { sw with geomDisposed := true, matDisposed := true }

/-- The per-frame pass over `activeShockwaves` (src/main.js lines 227-268).
The source iterates the array from its last index down to 0 and `splice`s
expired entries out in place; that is the order-preserving partition
embedded here.  Returns (surviving effects, retired-and-disposed effects). -/
def shockwavePass (elapsed : ℚ) : List Shockwave → List Shockwave × List Shockwave
  | [] => ([], [])
  | sw :: rest =>
    if elapsed - sw.startTime > sw.duration then
      ((shockwavePass elapsed rest).1, retireShockwave sw :: (shockwavePass elapsed rest).2)
    else
      (tickShockwave elapsed sw :: (shockwavePass elapsed rest).1,
       (shockwavePass elapsed rest).2)

/-! ### Shockwave line-segment geometry (src/main.js lines 151-167, 248-263)

The vertex buffer holds, for each of the `numLines` evenly spaced
angles, a line segment from an inner endpoint to an outer endpoint in
the XZ plane.  Creation writes the segment from `startRadius` to
`startRadius + thickness`; each surviving frame rewrites it from
`currentInnerRadius` to `currentOuterRadius`. -/

noncomputable def lineAngle (numLines j : ℕ) : ℝ :=
  ((j : ℝ) / (numLines : ℝ)) * Real.pi * 2

/-- Creation-time inner endpoint of line `j` (src/main.js lines 159-161). -/
noncomputable def createVertexStart (j : ℕ) : ℝ × ℝ × ℝ :=
  ((SHOCKWAVE_START_RADIUS : ℝ) * Real.cos (lineAngle SHOCKWAVE_NUM_LINES j), 0,
   (SHOCKWAVE_START_RADIUS : ℝ) * Real.sin (lineAngle SHOCKWAVE_NUM_LINES j))

/-- Creation-time outer endpoint of line `j` (src/main.js lines 164-166),
at `endRadius = SHOCKWAVE_START_RADIUS + SHOCKWAVE_THICKNESS`. -/
noncomputable def createVertexEnd (j : ℕ) : ℝ × ℝ × ℝ :=
  (((SHOCKWAVE_START_RADIUS + SHOCKWAVE_THICKNESS : ℚ) : ℝ) *
     Real.cos (lineAngle SHOCKWAVE_NUM_LINES j), 0,
   ((SHOCKWAVE_START_RADIUS + SHOCKWAVE_THICKNESS : ℚ) : ℝ) *
     Real.sin (lineAngle SHOCKWAVE_NUM_LINES j))

/-- Tick-time inner endpoint of line `j` at the given age
(src/main.js lines 254-257). -/
noncomputable def tickVertexStart (sw : Shockwave) (age : ℚ) (j : ℕ) : ℝ × ℝ × ℝ :=
  ((currentInnerRadius sw age : ℝ) * Real.cos (lineAngle sw.numLines j), 0,
   (currentInnerRadius sw age : ℝ) * Real.sin (lineAngle sw.numLines j))

/-- Tick-time outer endpoint of line `j` at the given age
(src/main.js lines 259-262). -/
noncomputable def tickVertexEnd (sw : Shockwave) (age : ℚ) (j : ℕ) : ℝ × ℝ × ℝ :=
  ((currentOuterRadius sw age : ℝ) * Real.cos (lineAngle sw.numLines j), 0,
   (currentOuterRadius sw age : ℝ) * Real.sin (lineAngle sw.numLines j))

/-! ### Orbit integration (src/main.js lines 216-223; part_000 lines 132-145)

A planet's `userData` plus the mutable mesh fields touched by the
per-frame update.  `main.js` normalizes the orbit angle with the `%`
operator; `part_000` uses a single conditional subtraction.  JavaScript
`%` truncates the quotient toward zero; on the nonnegative operands
occurring here it coincides with the floor-based remainder `jsMod`. -/

noncomputable def jsMod (x y : ℝ) : ℝ := x - y * ⌊x / y⌋

structure Planet where
  angle : ℝ
  orbitSpeed : ℝ
  rotationSpeed : ℝ
  orbitRadius : ℝ
  rotationY : ℝ
  posX : ℝ
  posZ : ℝ

/-- The per-planet frame update of src/main.js lines 216-223:
`angle = (angle + orbitSpeed * delta) % (2π)`, position recomputed from
the new angle, spin accumulated unbounded. -/
noncomputable def updatePlanetMain (p : Planet) (delta : ℝ) : Planet :=
  { p with
    angle := jsMod (p.angle + p.orbitSpeed * delta) (2 * Real.pi),
    posX := p.orbitRadius * Real.cos (jsMod (p.angle + p.orbitSpeed * delta) (2 * Real.pi)),
    posZ := p.orbitRadius * Real.sin (jsMod (p.angle + p.orbitSpeed * delta) (2 * Real.pi)),
    rotationY := p.rotationY + p.rotationSpeed * delta }

/-- The per-planet frame update of src/unnamed/part_000 lines 132-145:
`angle += speed * delta; if (angle > 2π) angle -= 2π`, position
recomputed from the new angle (this variant has no per-planet spin). -/
noncomputable def updatePlanetUnnamed (p : Planet) (delta : ℝ) : Planet :=
  { p with
    angle :=
      if p.angle + p.orbitSpeed * delta > 2 * Real.pi then
        p.angle + p.orbitSpeed * delta - 2 * Real.pi
      else
        p.angle + p.orbitSpeed * delta,
    posX := p.orbitRadius *
      Real.cos (if p.angle + p.orbitSpeed * delta > 2 * Real.pi then
          p.angle + p.orbitSpeed * delta - 2 * Real.pi
        else p.angle + p.orbitSpeed * delta),
    posZ := p.orbitRadius *
      Real.sin (if p.angle + p.orbitSpeed * delta > 2 * Real.pi then
          p.angle + p.orbitSpeed * delta - 2 * Real.pi
        else p.angle + p.orbitSpeed * delta) }

/-! ### Start-button / playback-start interleavings (src/main.js lines 294-310)

`startExperience` unmutes the media element, requests playback, and on
either completion of the `play()` promise (success or failure) starts
the frame loop guarded by `if (!animationId) animate()`; the failure
path first shows an `alert`.  In the browser's single-threaded event
loop each click handler and each promise completion runs atomically, so
an interleaving is a sequence of these events.  `animationId` is
assigned on the first line of `animate`, so it is non-null from the
moment the loop starts. -/

inductive StartEvent
  | click
  | succeed
  | fail
  deriving DecidableEq

structure AppState where
  animationId : Bool
  startCount : ℕ
  alertCount : ℕ
  buttonHidden : Bool
  deriving DecidableEq

def initialAppState : AppState := ⟨false, 0, 0, false⟩

def handleStartEvent (s : AppState) : StartEvent → AppState
  | .click => { s with buttonHidden := true }
  | .succeed =>
    if s.animationId then s
    else { s with animationId := true, startCount := s.startCount + 1 }
  | .fail =>
    if s.animationId then { s with alertCount := s.alertCount + 1 }
    else { s with alertCount := s.alertCount + 1, animationId := true,
                  startCount := s.startCount + 1 }

def runStartEvents (s : AppState) : List StartEvent → AppState
  | [] => s
  | e :: es => runStartEvents (handleStartEvent s e) es

/-! ### Basic lemmas about `pollLoop` -/

theorem pollLoop_mem_fst (prev curr : ℚ) (stamps : List ℚ) (fired : List ℚ) (t : ℚ) :
    t ∈ (pollLoop prev curr stamps fired).1 ↔
      t ∈ stamps ∧ prev < t ∧ t ≤ curr ∧ t ∉ fired := by
  induction stamps generalizing fired with
  | nil => simp [pollLoop]
  | cons s rest ih =>
    by_cases hc : prev < s ∧ curr ≥ s ∧ s ∉ fired
    · simp only [pollLoop, if_pos hc, List.mem_cons]
      constructor
      · rintro (rfl | hmem)
        · exact ⟨Or.inl rfl, hc.1, hc.2.1, hc.2.2⟩
        · have := (ih (s :: fired)).1 hmem
          refine ⟨Or.inr this.1, this.2.1, this.2.2.1, ?_⟩
          intro hf
          exact this.2.2.2 (List.mem_cons_of_mem s hf)
      · rintro ⟨hs, hlt, hle, hnf⟩
        rcases hs with rfl | hs
        · exact Or.inl rfl
        · by_cases hts : t = s
          · exact Or.inl hts
          · refine Or.inr ((ih (s :: fired)).2 ⟨hs, hlt, hle, ?_⟩)
            simp [List.mem_cons, hts, hnf]
    · simp only [pollLoop, if_neg hc]
      rw [ih fired]
      constructor
      · rintro ⟨hs, hlt, hle, hnf⟩
        exact ⟨List.mem_cons_of_mem _ hs, hlt, hle, hnf⟩
      · rintro ⟨hs, hlt, hle, hnf⟩
        rcases List.mem_cons.1 hs with rfl | hs
        · exact absurd ⟨hlt, hle, hnf⟩ hc
        · exact ⟨hs, hlt, hle, hnf⟩

theorem pollLoop_mem_snd (prev curr : ℚ) (stamps : List ℚ) (fired : List ℚ) (t : ℚ) :
    t ∈ (pollLoop prev curr stamps fired).2 ↔
      t ∈ fired ∨ (t ∈ stamps ∧ prev < t ∧ t ≤ curr) := by
  induction stamps generalizing fired with
  | nil => simp [pollLoop]
  | cons s rest ih =>
    by_cases hc : prev < s ∧ curr ≥ s ∧ s ∉ fired
    · simp only [pollLoop, if_pos hc]
      rw [ih (s :: fired)]
      simp only [List.mem_cons]
      constructor
      · rintro ((rfl | hf) | ⟨hs, hlt, hle⟩)
        · exact Or.inr ⟨Or.inl rfl, hc.1, hc.2.1⟩
        · exact Or.inl hf
        · exact Or.inr ⟨Or.inr hs, hlt, hle⟩
      · rintro (hf | ⟨rfl | hs, hlt, hle⟩)
        · exact Or.inl (Or.inr hf)
        · exact Or.inl (Or.inl rfl)
        · exact Or.inr ⟨hs, hlt, hle⟩
    · simp only [pollLoop, if_neg hc]
      rw [ih fired]
      simp only [List.mem_cons]
      constructor
      · rintro (hf | ⟨hs, hlt, hle⟩)
        · exact Or.inl hf
        · exact Or.inr ⟨Or.inr hs, hlt, hle⟩
      · rintro (hf | ⟨rfl | hs, hlt, hle⟩)
        · exact Or.inl hf
        · rcases Decidable.em (t ∈ fired) with hf | hf
          · exact Or.inl hf
          · exact absurd ⟨hlt, hle, hf⟩ hc
        · exact Or.inr ⟨hs, hlt, hle⟩

theorem pollLoop_fst_sublist (prev curr : ℚ) (stamps : List ℚ) (fired : List ℚ) :
    (pollLoop prev curr stamps fired).1.Sublist stamps := by
  induction stamps generalizing fired with
  | nil => simp [pollLoop]
  | cons s rest ih =>
    by_cases hc : prev < s ∧ curr ≥ s ∧ s ∉ fired
    · simpa [pollLoop, if_pos hc] using (ih (s :: fired)).cons₂ s
    · simpa [pollLoop, if_neg hc] using (ih fired).cons s

theorem poll_fst_prev_lt (p c : ℚ) (fired : List ℚ) (stamps : List ℚ) (t : ℚ)
    (h : t ∈ (poll p c fired stamps).1) : p < t :=
  ((pollLoop_mem_fst p c stamps _ t).1 h).2.1

theorem monitorRun_zero_not_fired (l : List ℚ) :
    ∀ s : MonitorState, 0 ≤ s.previousTime → (∀ x ∈ l, 0 ≤ x) →
      ∀ out ∈ monitorRun s l, (0 : ℚ) ∉ out := by
  induction l with
  | nil =>
    intro s _ _ out hout
    simp [monitorRun] at hout
  | cons c cs ih =>
    intro s hs hl out hout
    rcases List.mem_cons.1 hout with rfl | hout
    · intro h0
      exact absurd (poll_fst_prev_lt s.previousTime c s.fired ringTimestamps 0 h0)
        (not_lt.2 hs)
    · exact ih (monitorStep s c).1 (hl c (List.mem_cons_self c cs))
        (fun x hx => hl x (List.mem_cons_of_mem c hx)) out hout

/-! ### Lemmas about the shockwave pass -/

theorem shockwavePass_fst_age (e : ℚ) (l : List Shockwave) :
    ∀ sw ∈ (shockwavePass e l).1, e - sw.startTime ≤ sw.duration := by
  induction l with
  | nil =>
    intro sw h
    simp [shockwavePass] at h
  | cons sw0 rest ih =>
    intro sw h
    by_cases hx : e - sw0.startTime > sw0.duration
    · simp only [shockwavePass, if_pos hx] at h
      exact ih sw h
    · simp only [shockwavePass, if_neg hx] at h
      rcases List.mem_cons.1 h with rfl | h
      · simpa [tickShockwave] using not_lt.1 hx
      · exact ih sw h

theorem shockwavePass_eid_subset (e : ℚ) (l : List Shockwave) (x : ℕ) :
    (x ∈ (shockwavePass e l).1.map Shockwave.eid → x ∈ l.map Shockwave.eid) ∧
    (x ∈ (shockwavePass e l).2.map Shockwave.eid → x ∈ l.map Shockwave.eid) := by
  induction l with
  | nil => simp [shockwavePass]
  | cons sw0 rest ih =>
    by_cases hx : e - sw0.startTime > sw0.duration
    · simp only [shockwavePass, if_pos hx, List.map_cons, List.mem_cons]
      refine ⟨fun h => Or.inr (ih.1 h), fun h => ?_⟩
      rcases h with h | h
      · exact Or.inl (by simpa [retireShockwave] using h)
      · exact Or.inr (ih.2 h)
    · simp only [shockwavePass, if_neg hx, List.map_cons, List.mem_cons]
      refine ⟨fun h => ?_, fun h => Or.inr (ih.2 h)⟩
      rcases h with h | h
      · exact Or.inl (by simpa [tickShockwave] using h)
      · exact Or.inr (ih.1 h)

theorem shockwavePass_retired_mem (e : ℚ) (l : List Shockwave) :
    ∀ sw ∈ l, sw.duration < e - sw.startTime →
      retireShockwave sw ∈ (shockwavePass e l).2 := by
  induction l with
  | nil =>
    intro sw h
    simp at h
  | cons sw0 rest ih =>
    intro sw hmem hexp
    by_cases hx : e - sw0.startTime > sw0.duration
    · simp only [shockwavePass, if_pos hx, List.mem_cons]
      rcases List.mem_cons.1 hmem with rfl | hmem
      · exact Or.inl rfl
      · exact Or.inr (ih sw hmem hexp)
    · simp only [shockwavePass, if_neg hx]
      rcases List.mem_cons.1 hmem with rfl | hmem
      · exact absurd hexp hx
      · exact ih sw hmem hexp

theorem shockwavePass_expired_not_kept (e : ℚ) (l : List Shockwave)
    (hids : (l.map Shockwave.eid).Nodup) :
    ∀ sw ∈ l, sw.duration < e - sw.startTime →
      sw.eid ∉ (shockwavePass e l).1.map Shockwave.eid := by
  induction l with
  | nil =>
    intro sw h
    simp at h
  | cons sw0 rest ih =>
    intro sw hmem hexp hkept
    simp only [List.map_cons, List.nodup_cons] at hids
    rcases List.mem_cons.1 hmem with rfl | hmem
    · have hx : e - sw.startTime > sw.duration := hexp
      simp only [shockwavePass, if_pos hx] at hkept
      exact hids.1 ((shockwavePass_eid_subset e rest sw.eid).1 hkept)
    · by_cases hx : e - sw0.startTime > sw0.duration
      · simp only [shockwavePass, if_pos hx] at hkept
        exact ih hids.2 sw hmem hexp hkept
      · simp only [shockwavePass, if_neg hx, List.map_cons, List.mem_cons] at hkept
        rcases hkept with heq | hkept
        · have hin : sw.eid ∈ rest.map Shockwave.eid := List.mem_map_of_mem _ hmem
          rw [show (tickShockwave e sw0).eid = sw0.eid from rfl] at heq
          rw [heq] at hin
          exact hids.1 hin
        · exact ih hids.2 sw hmem hexp hkept

/-! ### Lemmas about angle normalization and the event model -/

theorem jsMod_mem_Ico (x y : ℝ) (hy : 0 < y) : jsMod x y ∈ Set.Ico 0 y := by
  have key : jsMod x y = y * Int.fract (x / y) := by
    unfold jsMod Int.fract
    field_simp
  rw [key]
  constructor
  · exact mul_nonneg hy.le (Int.fract_nonneg _)
  · simpa using mul_lt_mul_of_pos_left (Int.fract_lt_one (x / y)) hy

theorem runStartEvents_started (evs : List StartEvent) :
    ∀ s : AppState, s.animationId = true →
      (runStartEvents s evs).animationId = true ∧
      (runStartEvents s evs).startCount = s.startCount := by
  induction evs with
  | nil =>
    intro s h
    exact ⟨h, rfl⟩
  | cons e es ih =>
    intro s h
    have hstep : (handleStartEvent s e).animationId = true ∧
        (handleStartEvent s e).startCount = s.startCount := by
      cases e with
      | click => exact ⟨h, rfl⟩
      | succeed => simp [handleStartEvent, h]
      | fail => simp [handleStartEvent, h]
    have hr := ih (handleStartEvent s e) hstep.1
    simp only [runStartEvents]
    exact ⟨hr.1, by rw [hr.2, hstep.2]⟩

theorem runStartEvents_first_completion (evs : List StartEvent) :
    ∀ s : AppState, s.animationId = false →
      (StartEvent.succeed ∈ evs ∨ StartEvent.fail ∈ evs) →
      (runStartEvents s evs).animationId = true ∧
      (runStartEvents s evs).startCount = s.startCount + 1 := by
  induction evs with
  | nil =>
    intro s _ h
    rcases h with h | h <;> simp at h
  | cons e es ih =>
    intro s hs h
    cases e with
    | click =>
      have h' : StartEvent.succeed ∈ es ∨ StartEvent.fail ∈ es := by
        rcases h with h | h
        · rcases List.mem_cons.1 h with heq | hm
          · exact absurd heq (by decide)
          · exact Or.inl hm
        · rcases List.mem_cons.1 h with heq | hm
          · exact absurd heq (by decide)
          · exact Or.inr hm
      have hr := ih (handleStartEvent s .click) hs h'
      simp only [runStartEvents]
      exact ⟨hr.1, hr.2⟩
    | succeed =>
      have hstep : handleStartEvent s .succeed =
          { s with animationId := true, startCount := s.startCount + 1 } := by
        simp [handleStartEvent, hs]
      have hr := runStartEvents_started es (handleStartEvent s .succeed) (by rw [hstep])
      simp only [runStartEvents]
      exact ⟨hr.1, by rw [hr.2, hstep]⟩
    | fail =>
      have hstep : handleStartEvent s .fail =
          { s with alertCount := s.alertCount + 1, animationId := true,
                   startCount := s.startCount + 1 } := by
        simp [handleStartEvent, hs]
      have hr := runStartEvents_started es (handleStartEvent s .fail) (by rw [hstep])
      simp only [runStartEvents]
      exact ⟨hr.1, by rw [hr.2, hstep]⟩

/-! ### Claim theorems -/

/-- C3 counterexample: the single-conditional-subtraction variant
(part_000) does not keep the angle in `[0, 2π)` for unbounded `deltaTime`:
starting at angle 0 with angular speed 1, a frame with `delta = 100` leaves
the angle at `100 - 2π > 2π`. -/
theorem angle_normalization_counterexample :
    (updatePlanetUnnamed ⟨0, 1, 0, 1, 0, 0, 0⟩ 100).angle ∉ Set.Ico 0 (2 * Real.pi) := by
  have hpi := Real.pi_le_four
  have hpos := Real.pi_pos
  have hgt : (Planet.mk 0 1 0 1 0 0 0).angle +
      (Planet.mk 0 1 0 1 0 0 0).orbitSpeed * 100 > 2 * Real.pi := by
    show (0 : ℝ) + 1 * 100 > 2 * Real.pi
    nlinarith
  intro hmem
  have hval : (updatePlanetUnnamed ⟨0, 1, 0, 1, 0, 0, 0⟩ 100).angle =
      0 + 1 * 100 - 2 * Real.pi := by
    simp only [updatePlanetUnnamed, if_pos hgt]
  rw [hval] at hmem
  rcases hmem with ⟨_, hlt⟩
  nlinarith

/-- C3 amended: with nonnegative angle, angular speed and deltaTime, the
modulo normalization of src/main.js keeps the advanced angle in `[0, 2π)`
for every `deltaTime ≥ 0`; the single-conditional-subtraction variant of
part_000 does so only when the incremented angle stays below `4π` (and does
not land exactly on `2π`), i.e. it is not robust for deltaTime exceeding one
full period. -/
theorem angle_normalization_amended :
    (∀ (p : Planet) (delta : ℝ), 0 ≤ p.angle → 0 ≤ p.orbitSpeed → 0 ≤ delta →
      (updatePlanetMain p delta).angle ∈ Set.Ico 0 (2 * Real.pi)) ∧
    (∀ (p : Planet) (delta : ℝ), 0 ≤ p.angle → 0 ≤ p.orbitSpeed → 0 ≤ delta →
      p.angle + p.orbitSpeed * delta < 4 * Real.pi →
      p.angle + p.orbitSpeed * delta ≠ 2 * Real.pi →
      (updatePlanetUnnamed p delta).angle ∈ Set.Ico 0 (2 * Real.pi)) := by
  constructor
  · intro p delta _ _ _
    have h2pi : (0 : ℝ) < 2 * Real.pi := by positivity
    exact jsMod_mem_Ico (p.angle + p.orbitSpeed * delta) (2 * Real.pi) h2pi
  · intro p delta ha hs hd hlt hne
    have hnn : 0 ≤ p.angle + p.orbitSpeed * delta := add_nonneg ha (mul_nonneg hs hd)
    by_cases hgt : p.angle + p.orbitSpeed * delta > 2 * Real.pi
    · have hval : (updatePlanetUnnamed p delta).angle =
          p.angle + p.orbitSpeed * delta - 2 * Real.pi := by
        simp only [updatePlanetUnnamed, if_pos hgt]
      rw [hval]
      exact ⟨by linarith, by linarith⟩
    · have hval : (updatePlanetUnnamed p delta).angle =
          p.angle + p.orbitSpeed * delta := by
        simp only [updatePlanetUnnamed, if_neg hgt]
      rw [hval]
      push_neg at hgt
      exact ⟨hnn, lt_of_le_of_ne hgt hne⟩

/-- C3 amended witness: both normalizations leave the angle in `[0, 2π)`
for a zero-speed, zero-delta frame from angle 0. -/
theorem angle_normalization_amended_witness :
    (updatePlanetMain ⟨0, 0, 0, 0, 0, 0, 0⟩ 0).angle ∈ Set.Ico 0 (2 * Real.pi) ∧
    (updatePlanetUnnamed ⟨0, 0, 0, 0, 0, 0, 0⟩ 0).angle ∈ Set.Ico 0 (2 * Real.pi) := by
  have hpos := Real.pi_pos
  constructor
  · exact angle_normalization_amended.1 ⟨0, 0, 0, 0, 0, 0, 0⟩ 0 le_rfl le_rfl le_rfl
  · refine angle_normalization_amended.2 ⟨0, 0, 0, 0, 0, 0, 0⟩ 0 le_rfl le_rfl le_rfl ?_ ?_
    · show (0 : ℝ) + 0 * 0 < 4 * Real.pi
      nlinarith
    · show (0 : ℝ) + 0 * 0 ≠ 2 * Real.pi
      intro hEq
      nlinarith [hEq]

/-- C1: on a forward poll (`previousTime ≤ currentTime`), a trigger fires for a
configured timestamp `t` (and `t` joins the fired-set) iff
`previousTime < t ≤ currentTime` and `t` was not in the fired-set; all
configured timestamps are checked, so under distinct configuration a crossed
timestamp fires exactly once in that frame; and a timestamp never fires in a
later poll whose interval does not re-cross it (`t ≤ previousTime`). -/
theorem audio_trigger_fires_iff (p c t : ℚ) (fired stamps : List ℚ) (hpc : p ≤ c) :
    (t ∈ (poll p c fired stamps).1 ↔ t ∈ stamps ∧ p < t ∧ t ≤ c ∧ t ∉ fired) ∧
    (t ∈ (poll p c fired stamps).2 ↔ t ∈ fired ∨ (t ∈ stamps ∧ p < t ∧ t ≤ c)) ∧
    (stamps.Nodup →
      (poll p c fired stamps).1.count t =
        if t ∈ stamps ∧ p < t ∧ t ≤ c ∧ t ∉ fired then 1 else 0) ∧
    (∀ p' c' fired', t ≤ p' → t ∉ (poll p' c' fired' stamps).1) := by
  have hng : ¬(c < p ∧ p > 1) := fun hh => absurd hpc (not_le.2 hh.1)
  have hpoll : poll p c fired stamps = pollLoop p c stamps fired := by
    rw [poll, if_neg hng]
  refine ⟨?_, ?_, ?_, ?_⟩
  · rw [hpoll]
    exact pollLoop_mem_fst p c stamps fired t
  · rw [hpoll]
    exact pollLoop_mem_snd p c stamps fired t
  · intro hnd
    rw [hpoll]
    have hnd' : (pollLoop p c stamps fired).1.Nodup :=
      List.Nodup.sublist (pollLoop_fst_sublist p c stamps fired) hnd
    rw [List.count_eq_of_nodup hnd']
    by_cases hcnd : t ∈ stamps ∧ p < t ∧ t ≤ c ∧ t ∉ fired
    · rw [if_pos ((pollLoop_mem_fst p c stamps fired t).2 hcnd), if_pos hcnd]
    · rw [if_neg fun hm => hcnd ((pollLoop_mem_fst p c stamps fired t).1 hm),
        if_neg hcnd]
  · intro p' c' fired' hle hmem
    exact absurd (poll_fst_prev_lt p' c' fired' stamps t hmem) (not_lt.2 hle)

/-- C1 witness: `poll(5.0, 5.3)` fires `5.2` exactly once and records it;
the follow-up `poll(5.3, 5.4)` cannot refire it. -/
theorem audio_trigger_fires_iff_witness :
    (5.0 : ℚ) ≤ 5.3 ∧
    (poll 5.0 5.3 [] ringTimestamps).1.count 5.2 = 1 ∧
    (5.2 : ℚ) ∈ (poll 5.0 5.3 [] ringTimestamps).2 ∧
    (5.2 : ℚ) ∉ (poll 5.3 5.4 (poll 5.0 5.3 [] ringTimestamps).2 ringTimestamps).1 := by
  have h := audio_trigger_fires_iff 5.0 5.3 5.2 [] ringTimestamps (by norm_num)
  refine ⟨by norm_num, ?_, ?_, ?_⟩
  · rw [h.2.2.1 (by norm_num [ringTimestamps])]
    norm_num [ringTimestamps]
  · exact h.2.1.2 (Or.inr ⟨by norm_num [ringTimestamps], by norm_num, by norm_num⟩)
  · exact h.2.2.2 5.3 5.4 _ (by norm_num)

/-- C2: a poll observing a backward jump (`currentTime < previousTime` with
`previousTime > 1`) evaluates this frame's triggers against the cleared
(empty) fired-set, leaves every configured timestamp out of the resulting
fired-set, and any configured timestamp crossed by a later poll fires
again. -/
theorem backward_jump_clears_fired (p c : ℚ) (fired stamps : List ℚ)
    (hjump : c < p) (hp : 1 < p) :
    poll p c fired stamps = pollLoop p c stamps [] ∧
    (∀ t, t ∉ (poll p c fired stamps).2) ∧
    (∀ t ∈ stamps, ∀ p' c' : ℚ, p' < t → t ≤ c' →
      t ∈ (poll p' c' (poll p c fired stamps).2 stamps).1) := by
  have hcl : poll p c fired stamps = pollLoop p c stamps [] := by
    rw [poll, if_pos ⟨hjump, hp⟩]
  have hsnd : ∀ t, t ∉ (poll p c fired stamps).2 := by
    intro t ht
    rw [hcl] at ht
    rcases (pollLoop_mem_snd p c stamps [] t).1 ht with hf | ⟨_, hlt, hle⟩
    · simp at hf
    · linarith
  refine ⟨hcl, hsnd, ?_⟩
  intro t hts p' c' hp' hc'
  have hng : ¬(c' < p' ∧ p' > 1) := fun hh => by linarith [hh.1]
  rw [poll, if_neg hng]
  exact (pollLoop_mem_fst p' c' stamps _ t).2 ⟨hts, hp', hc', hsnd t⟩

/-- C2 witness: after `poll(40, 2)` the previously fired `5.2` is eligible
again (and so is `0`), and a later crossing poll refires `5.2`. -/
theorem backward_jump_clears_fired_witness :
    (2 : ℚ) < 40 ∧ (1 : ℚ) < 40 ∧
    (0 : ℚ) ∉ (poll 40 2 [5.2] ringTimestamps).2 ∧
    (5.2 : ℚ) ∉ (poll 40 2 [5.2] ringTimestamps).2 ∧
    (5.2 : ℚ) ∈ (poll 5.0 5.3 (poll 40 2 [5.2] ringTimestamps).2 ringTimestamps).1 := by
  have h := backward_jump_clears_fired 40 2 [5.2] ringTimestamps (by norm_num) (by norm_num)
  exact ⟨by norm_num, by norm_num, h.2.1 0, h.2.1 5.2,
    h.2.2 5.2 (by norm_num [ringTimestamps]) 5.0 5.3 (by norm_num) (by norm_num)⟩

/-- C7 counterexample: `5.2` is configured and unfired, yet the poll with
`previousTime = currentTime = 5.2` fires nothing, because the lower boundary
`previousTime < timestamp` is strict — the claim's asserted firing at
`previousTime == currentTime == t` does not happen. -/
theorem exact_boundary_poll_counterexample :
    (5.2 : ℚ) ∈ ringTimestamps ∧ (5.2 : ℚ) ∉ ([] : List ℚ) ∧
    (poll 5.2 5.2 [] ringTimestamps).1 = [] := by
  refine ⟨by norm_num [ringTimestamps], by simp, ?_⟩
  norm_num [poll, pollLoop, ringTimestamps, -reduceIte]

/-- C7 amended: the upper boundary is inclusive — an unfired configured `t`
with `previousTime < t` and `currentTime = t` exactly fires — but the lower
boundary is strict, so a poll with `previousTime = t` (in particular
`previousTime = currentTime = t`) does not fire `t`. -/
theorem exact_boundary_amended (p t : ℚ) (fired stamps : List ℚ)
    (hmem : t ∈ stamps) (hnf : t ∉ fired) (hlt : p < t) :
    t ∈ (poll p t fired stamps).1 ∧ ∀ fired' : List ℚ, t ∉ (poll t t fired' stamps).1 := by
  constructor
  · have hng : ¬(t < p ∧ p > 1) := fun hh => absurd hlt (not_lt.2 hh.1.le)
    rw [poll, if_neg hng]
    exact (pollLoop_mem_fst p t stamps fired t).2 ⟨hmem, hlt, le_refl t, hnf⟩
  · intro fired' hmem'
    exact absurd (poll_fst_prev_lt t t fired' stamps t hmem') (lt_irrefl t)

/-- C7 amended witness: `poll(5.0, 5.2)` fires the unfired `5.2` at its exact
upper boundary. -/
theorem exact_boundary_amended_witness :
    (5.0 : ℚ) < 5.2 ∧ (5.2 : ℚ) ∈ (poll 5.0 5.2 [] ringTimestamps).1 :=
  ⟨by norm_num,
   (exact_boundary_amended 5.0 5.2 [] ringTimestamps
      (by norm_num [ringTimestamps]) (by simp) (by norm_num)).1⟩

/-- C10: timestamp `0` is configured, yet over every run of the monitor from
the initial state (`previousTime = 0`, empty fired-set) on nonnegative media
time readings, no frame ever fires `0`: the strict condition
`previousTime < 0` is unsatisfiable, even after backward-jump resets. -/
theorem timestamp_zero_never_fires (inputs : List ℚ)
    (hpos : ∀ x ∈ inputs, 0 ≤ x) :
    (0 : ℚ) ∈ ringTimestamps ∧
    ∀ out ∈ monitorRun initialMonitorState inputs, (0 : ℚ) ∉ out :=
  ⟨by norm_num [ringTimestamps],
   monitorRun_zero_not_fired inputs initialMonitorState le_rfl hpos⟩

/-- C10 witness: a run whose second frame crosses and fires `5.2` still never
fires timestamp `0`. -/
theorem timestamp_zero_never_fires_witness :
    ([5.2] : List ℚ) ∈ monitorRun initialMonitorState [3, 6] ∧
    (0 : ℚ) ∉ ([5.2] : List ℚ) := by
  have h := timestamp_zero_never_fires [3, 6] (by norm_num)
  have hrun : monitorRun initialMonitorState [3, 6] = [[], [5.2]] := by
    norm_num [monitorRun, monitorStep, initialMonitorState, poll, pollLoop,
      ringTimestamps, -reduceIte]
  exact ⟨by rw [hrun]; simp, h.2 [5.2] (by rw [hrun]; simp)⟩

/-- C4: in a frame's shockwave-advance pass, every effect whose age exceeds
its duration is removed from the active collection with its geometry and
material disposed; every survivor has age ≤ duration; and an effect absent
from a collection is never ticked or retired by any later pass over it. -/
theorem shockwave_retirement (e : ℚ) (l : List Shockwave)
    (hids : (l.map Shockwave.eid).Nodup) :
    (∀ sw ∈ (shockwavePass e l).1, e - sw.startTime ≤ sw.duration) ∧
    (∀ sw ∈ l, sw.duration < e - sw.startTime →
      retireShockwave sw ∈ (shockwavePass e l).2 ∧
      (retireShockwave sw).geomDisposed = true ∧
      (retireShockwave sw).matDisposed = true ∧
      sw.eid ∉ (shockwavePass e l).1.map Shockwave.eid) ∧
    (∀ (e' : ℚ) (m : List Shockwave) (x : ℕ), x ∉ m.map Shockwave.eid →
      x ∉ (shockwavePass e' m).1.map Shockwave.eid ∧
      x ∉ (shockwavePass e' m).2.map Shockwave.eid) := by
  refine ⟨shockwavePass_fst_age e l, ?_, ?_⟩
  · intro sw hmem hexp
    exact ⟨shockwavePass_retired_mem e l sw hmem hexp, rfl, rfl,
      shockwavePass_expired_not_kept e l hids sw hmem hexp⟩
  · intro e' m x hx
    exact ⟨fun h => hx ((shockwavePass_eid_subset e' m x).1 h),
      fun h => hx ((shockwavePass_eid_subset e' m x).2 h)⟩

/-- C4 witness: at elapsed time 5, an effect spawned at time 1 (age 4 > 2)
is retired and disposed while an effect spawned at time 4 (age 1) survives. -/
theorem shockwave_retirement_witness :
    (([createShockwave 0 1, createShockwave 1 4].map Shockwave.eid).Nodup) ∧
    retireShockwave (createShockwave 0 1) ∈
      (shockwavePass 5 [createShockwave 0 1, createShockwave 1 4]).2 ∧
    (createShockwave 0 1).eid ∉
      (shockwavePass 5 [createShockwave 0 1, createShockwave 1 4]).1.map Shockwave.eid := by
  have hids : (([createShockwave 0 1, createShockwave 1 4]).map Shockwave.eid).Nodup := by
    simp [createShockwave]
  have h := shockwave_retirement 5 [createShockwave 0 1, createShockwave 1 4] hids
  have hexp : (createShockwave 0 1).duration < 5 - (createShockwave 0 1).startTime := by
    norm_num [createShockwave, SHOCKWAVE_DURATION]
  have hm := h.2.1 (createShockwave 0 1) (by simp) hexp
  exact ⟨hids, hm.1, hm.2.2.2⟩

/-- C5: the per-frame advance sets a shockwave's opacity to
`SHOCKWAVE_INITIAL_OPACITY * (1 - age/duration)`, which is non-increasing in
age across the effect's life `0 ≤ age ≤ duration` and is exactly 0 at
`age = duration`. -/
theorem shockwave_opacity_fade (a₁ a₂ d : ℚ) (hd : 0 < d) (h0 : 0 ≤ a₁)
    (h12 : a₁ ≤ a₂) (h2d : a₂ ≤ d) :
    (∀ (e : ℚ) (sw : Shockwave),
      (tickShockwave e sw).opacity = shockwaveOpacity (e - sw.startTime) sw.duration) ∧
    shockwaveOpacity a₂ d ≤ shockwaveOpacity a₁ d ∧
    shockwaveOpacity d d = 0 := by
  refine ⟨fun e sw => rfl, ?_, ?_⟩
  · have hdiv : a₁ / d ≤ a₂ / d := by gcongr
    unfold shockwaveOpacity SHOCKWAVE_INITIAL_OPACITY
    nlinarith [hdiv]
  · unfold shockwaveOpacity
    rw [div_self hd.ne']
    ring

/-- C5 witness: for duration 2, opacity at age 1 is below opacity at age 0
and hits exactly 0 at age 2. -/
theorem shockwave_opacity_fade_witness :
    shockwaveOpacity 1 2 ≤ shockwaveOpacity 0 2 ∧ shockwaveOpacity 2 2 = 0 :=
  ⟨(shockwave_opacity_fade 0 1 2 (by norm_num) (by norm_num) (by norm_num)
      (by norm_num)).2.1,
   (shockwave_opacity_fade 0 1 2 (by norm_num) (by norm_num) (by norm_num)
      (by norm_num)).2.2⟩

/-- C6: for a spawned shockwave and any age in `[0, duration]`, the advance's
radii satisfy `outerRadius = startRadius + age·speed`,
`innerRadius = max startRadius (outerRadius - thickness)`, with
`innerRadius ≥ startRadius` and `outerRadius ≥ innerRadius`. -/
theorem shockwave_radii_invariant (eid : ℕ) (t0 age : ℚ) (h0 : 0 ≤ age)
    (hd : age ≤ (createShockwave eid t0).duration) :
    SHOCKWAVE_START_RADIUS ≤ currentInnerRadius (createShockwave eid t0) age ∧
    currentInnerRadius (createShockwave eid t0) age ≤
      currentOuterRadius (createShockwave eid t0) age ∧
    currentOuterRadius (createShockwave eid t0) age =
      SHOCKWAVE_START_RADIUS + age * SHOCKWAVE_SPEED ∧
    currentInnerRadius (createShockwave eid t0) age =
      max SHOCKWAVE_START_RADIUS
        (currentOuterRadius (createShockwave eid t0) age - SHOCKWAVE_THICKNESS) := by
  refine ⟨le_max_left _ _, ?_, rfl, rfl⟩
  apply max_le
  · show (createShockwave eid t0).startRadius ≤ _
    unfold currentOuterRadius
    have hsp : (0 : ℚ) ≤ (createShockwave eid t0).speed := by
      norm_num [createShockwave, SHOCKWAVE_SPEED]
    nlinarith [mul_nonneg h0 hsp]
  · have hth : (0 : ℚ) ≤ (createShockwave eid t0).thickness := by
      norm_num [createShockwave, SHOCKWAVE_THICKNESS]
    linarith

/-- C6 witness: at age 0 the radii invariants hold for a fresh shockwave. -/
theorem shockwave_radii_invariant_witness :
    SHOCKWAVE_START_RADIUS ≤ currentInnerRadius (createShockwave 0 0) 0 ∧
    currentInnerRadius (createShockwave 0 0) 0 ≤ currentOuterRadius (createShockwave 0 0) 0 :=
  ⟨(shockwave_radii_invariant 0 0 0 le_rfl
      (by norm_num [createShockwave, SHOCKWAVE_DURATION])).1,
   (shockwave_radii_invariant 0 0 0 le_rfl
      (by norm_num [createShockwave, SHOCKWAVE_DURATION])).2.1⟩

/-- C8 counterexample: the first tick at age 0 does not reproduce the
creation-time geometry: line 0's creation outer endpoint sits at radius
`startRadius + thickness = 2.6`, but the tick recomputes it at
`outerRadius = startRadius + 0·speed = 1.6`. -/
theorem spawn_tick_geometry_counterexample :
    tickVertexEnd (createShockwave 0 0) 0 0 ≠ createVertexEnd 0 := by
  intro h
  have hx := congrArg Prod.fst h
  have hang : lineAngle SHOCKWAVE_NUM_LINES 0 = 0 := by
    simp [lineAngle]
  simp only [tickVertexEnd, createVertexEnd, createShockwave, hang, Real.cos_zero,
    mul_one] at hx
  rw [Rat.cast_injective.eq_iff] at hx
  norm_num [currentOuterRadius, createShockwave, SHOCKWAVE_START_RADIUS, SUN_RADIUS,
    SHOCKWAVE_THICKNESS] at hx

/-- C8 amended: ticking a freshly spawned shockwave at age 0 yields
`innerRadius = outerRadius = startRadius`, a zero-width band: each line's
tick-time inner endpoint matches its creation-time inner endpoint, but the
tick-time outer endpoint also equals the creation-time INNER endpoint, not
the creation-time outer endpoint (which sits `thickness` further out). -/
theorem spawn_tick_geometry_amended (eid : ℕ) (t0 : ℚ) (j : ℕ) :
    tickVertexStart (createShockwave eid t0) 0 j = createVertexStart j ∧
    tickVertexEnd (createShockwave eid t0) 0 j = createVertexStart j := by
  have houter : currentOuterRadius (createShockwave eid t0) 0 = SHOCKWAVE_START_RADIUS := by
    norm_num [currentOuterRadius, createShockwave]
  have hinner : currentInnerRadius (createShockwave eid t0) 0 = SHOCKWAVE_START_RADIUS := by
    unfold currentInnerRadius
    rw [houter]
    apply max_eq_left
    norm_num [createShockwave, SHOCKWAVE_THICKNESS]
  have hnum : (createShockwave eid t0).numLines = SHOCKWAVE_NUM_LINES := rfl
  constructor
  · simp only [tickVertexStart, createVertexStart, hinner, hnum]
  · simp only [tickVertexEnd, createVertexStart, houter, hnum]

/-- C9: across every interleaving of start-button clicks and play()
success/failure completions, the frame loop starts exactly once (a
completion arriving with the loop already scheduled is a no-op), and a
play() failure raises the user-visible alert and still leaves the loop
running. -/
theorem frame_loop_starts_once (evs : List StartEvent)
    (h : StartEvent.succeed ∈ evs ∨ StartEvent.fail ∈ evs) :
    (runStartEvents initialAppState evs).startCount = 1 ∧
    (runStartEvents initialAppState evs).animationId = true ∧
    (∀ s : AppState,
      (handleStartEvent s StartEvent.fail).alertCount = s.alertCount + 1 ∧
      (handleStartEvent s StartEvent.fail).animationId = true) := by
  have hrun := runStartEvents_first_completion evs initialAppState rfl h
  refine ⟨by rw [hrun.2]; rfl, hrun.1, ?_⟩
  intro s
  by_cases hb : s.animationId = true
  · constructor <;> simp [handleStartEvent, hb]
  · have hb' : s.animationId = false := by simpa using hb
    constructor <;> simp [handleStartEvent, hb']

/-- C9 witness: a click followed by a play() failure shows one alert and
starts the loop exactly once. -/
theorem frame_loop_starts_once_witness :
    (StartEvent.succeed ∈ [StartEvent.click, StartEvent.fail] ∨
      StartEvent.fail ∈ [StartEvent.click, StartEvent.fail]) ∧
    (runStartEvents initialAppState [StartEvent.click, StartEvent.fail]).startCount = 1 ∧
    (runStartEvents initialAppState [StartEvent.click, StartEvent.fail]).alertCount = 1 := by
  have h := frame_loop_starts_once [StartEvent.click, StartEvent.fail] (Or.inr (by decide))
  exact ⟨Or.inr (by decide), h.1, by decide⟩

end DgaOrbit
